import Mathlib

/-
Verification of the HAR flow analyzer (src/unnamed/part_001) of this
repository.  The analyzer ingests a HAR network trace, filters and sorts the
entries, extracts request records, infers dependency edges between requests by
matching response values against later request values, and renders a mermaid
diagram.  The Lean definitions below are a shallow embedding of that script:
JavaScript strings are Lean strings (all inputs of interest are ASCII, where
the UTF-16 length used by JavaScript agrees with the codepoint length used
here), JSON.parse is modelled by an executable JSON parser over the standard
JSON grammar, JavaScript Map and object literals are modelled by
insertion-ordered association lists with replace-in-place update, and the ISO
timestamp strings are modelled by their parsed epoch-millisecond integers.
-/

namespace HarTools

/-! ## String helpers modelling the JavaScript string builtins used -/

/-- First list is an initial segment of the second (character lists). -/
def chPre : List Char → List Char → Bool
  | [], _ => true
  | _ :: _, [] => false
  | a :: as, b :: bs => a = b && chPre as bs

/-- Needle occurs contiguously somewhere in the haystack (character lists). -/
def chSub (needle : List Char) : List Char → Bool
  | [] => chPre needle []
  | c :: cs => chPre needle (c :: cs) || chSub needle cs

/-- Models the JavaScript includes check on strings: needle occurs in hay. -/
def strIncludes (hay needle : String) : Bool := chSub needle.data hay.data

/-- Models the JavaScript startsWith check on strings. -/
def strStarts (s p : String) : Bool := chPre p.data s.data

/-- Decimal digit test, through the code point. -/
def isDig (c : Char) : Bool := 47 < c.toNat && c.toNat < 58

/-- ASCII lowercase of one character. -/
def lowCh (c : Char) : Char :=
  if 'A' ≤ c && c ≤ 'Z' then Char.ofNat (c.toNat + 32) else c

/-- Models the JavaScript toLowerCase call on the ASCII strings it is applied
to here (header names, resource type labels, URLs). -/
def toLowerStr (s : String) : String := String.mk (s.data.map lowCh)

/-- Models the regex test for four digits, hyphen, two digits, hyphen, two
digits at the start of a string (the ISO date guard of indexValues, line 735
of src/unnamed/part_001). -/
def datePre (s : String) : Bool :=
  match s.data with
  | a :: b :: c :: d :: s1 :: e :: f :: s2 :: g :: h :: _ =>
    isDig a && isDig b && isDig c && isDig d && s1 = '-' && isDig e && isDig f &&
      s2 = '-' && isDig g && isDig h
  | _ => false

/-- Models the regex test for a leading http:// or https:// (the URL guard of
indexValues, line 736 of src/unnamed/part_001). -/
def urlPre (s : String) : Bool := strStarts s "http://" || strStarts s "https://"

/-! ## JSON values

A JSON number is kept as mantissa and decimal exponent exactly as written,
which is enough here because no claim depends on float rounding. -/

inductive Json where
  | null
  | bool (b : Bool)
  | num (mant : Int) (ex : Int)
  | str (s : String)
  | arr (items : List Json)
  | obj (fields : List (String × Json))

/-- Models JavaScript truthiness of a parsed JSON value. -/
def truthy : Json → Bool
  | .null => false
  | .bool b => b
  | .num m _ => m != 0
  | .str s => s != ""
  | .arr _ => true
  | .obj _ => true

/-! ## A JSON parser modelling JSON.parse (used by tryParseJson, line 1050)

The parser is fuel-indexed so that every function is structurally recursive
and kernel-reducible.  The fuel bound two times the input length is ample
because every recursive descent consumes input.  The parser follows the JSON
grammar accepted by JSON.parse: optional whitespace around tokens, strings
with the standard escapes including surrogate pairs, numbers without leading
zeros, and no trailing input.  Duplicate object keys keep the position of the
first occurrence and the value of the last, as JavaScript objects do. -/

/-- Double quote character. -/
def qMark : Char := Char.ofNat 34

/-- Backslash character. -/
def bSlash : Char := Char.ofNat 92

def skipWs : List Char → List Char
  | [] => []
  | c :: cs => if c = ' ' || c = '\t' || c = '\n' || c = '\r' then skipWs cs else c :: cs

/-- Value of one hex digit, through the code point. -/
def hexVal (c : Char) : Option Nat :=
  let n := c.toNat
  if 48 ≤ n && n ≤ 57 then some (n - 48)
  else if 97 ≤ n && n ≤ 102 then some (n - 87)
  else if 65 ≤ n && n ≤ 70 then some (n - 55)
  else none

def escChar (c : Char) : Option Char :=
  if c = qMark then some qMark
  else if c = bSlash then some bSlash
  else if c = '/' then some '/'
  else if c = 'b' then some (Char.ofNat 8)
  else if c = 'f' then some (Char.ofNat 12)
  else if c = 'n' then some (Char.ofNat 10)
  else if c = 'r' then some (Char.ofNat 13)
  else if c = 't' then some (Char.ofNat 9)
  else none

/-- Value of a four digit hex escape. -/
def hex4 (h1 h2 h3 h4 : Char) : Option Nat :=
  match hexVal h1, hexVal h2, hexVal h3, hexVal h4 with
  | some a, some b, some c, some d => some (4096 * a + 256 * b + 16 * c + d)
  | _, _, _, _ => none

def parseStrBody (acc : List Char) : List Char → Option (String × List Char)
  | [] => none
  | c :: cs =>
    if c = qMark then some (String.mk acc.reverse, cs)
    else if c = bSlash then
      match cs with
      | [] => none
      | e :: cs2 =>
        if e = 'u' then
          match cs2 with
          | h1 :: h2 :: h3 :: h4 :: cs3 =>
            match hex4 h1 h2 h3 h4 with
            | none => none
            | some n =>
              if 0xD800 ≤ n && n ≤ 0xDBFF then
                match cs3 with
                | b2 :: u2 :: g1 :: g2 :: g3 :: g4 :: cs4 =>
                  if b2 = bSlash && u2 = 'u' then
                    match hex4 g1 g2 g3 g4 with
                    | some n2 =>
                      if 0xDC00 ≤ n2 && n2 ≤ 0xDFFF then
                        parseStrBody
                          (Char.ofNat (0x10000 + (n - 0xD800) * 0x400 + (n2 - 0xDC00)) :: acc) cs4
                      else none
                    | none => none
                  else none
                | _ => none
              else if 0xDC00 ≤ n && n ≤ 0xDFFF then none
              else parseStrBody (Char.ofNat n :: acc) cs3
          | _ => none
        else
          match escChar e with
          | some r => parseStrBody (r :: acc) cs2
          | none => none
    else if c.toNat < 32 then none
    else parseStrBody (c :: acc) cs

/-- Consumes leading decimal digits, returning their value, their count, and
the rest of the input. -/
def digsVal (acc : Nat) : List Char → Nat × Nat × List Char
  | [] => (acc, 0, [])
  | c :: cs =>
    if isDig c then
      let r := digsVal (acc * 10 + (c.toNat - '0'.toNat)) cs
      (r.1, r.2.1 + 1, r.2.2)
    else (acc, 0, c :: cs)

def parseFrac (cs : List Char) : Option (Nat × Nat × List Char) :=
  match cs with
  | c :: rest =>
    if c = '.' then
      match rest with
      | d :: _ => if isDig d then some (digsVal 0 rest) else none
      | [] => none
    else some (0, 0, cs)
  | [] => some (0, 0, cs)

def parseExp (cs : List Char) : Option (Int × List Char) :=
  match cs with
  | c :: rest =>
    if c = 'e' || c = 'E' then
      let sr : Bool × List Char :=
        match rest with
        | s :: r2 => if s = '+' then (false, r2) else if s = '-' then (true, r2) else (false, rest)
        | [] => (false, rest)
      match sr.2 with
      | d :: _ =>
        if isDig d then
          let r := digsVal 0 sr.2
          some (if sr.1 then -(r.1 : Int) else (r.1 : Int), r.2.2)
        else none
      | [] => none
    else some (0, cs)
  | [] => some (0, cs)

def parseNum (cs : List Char) : Option (Json × List Char) :=
  let sgn : Bool × List Char :=
    match cs with
    | c :: rest => if c = '-' then (true, rest) else (false, cs)
    | [] => (false, cs)
  match sgn.2 with
  | [] => none
  | c :: _ =>
    if isDig c then
      let iv := digsVal 0 sgn.2
      if c = '0' && iv.2.1 != 1 then none
      else
        match parseFrac iv.2.2 with
        | none => none
        | some (fv, fcnt, cs3) =>
          match parseExp cs3 with
          | none => none
          | some (ev, cs4) =>
            let mant : Int := ((iv.1 * 10 ^ fcnt + fv : Nat) : Int)
            some (Json.num (if sgn.1 then -mant else mant) (ev - fcnt), cs4)
    else none

/-- Insert a field into an object under construction: the position of the
first occurrence of the key and the value of the last occurrence win, as for
JavaScript object properties. -/
def objUpsert (fields : List (String × Json)) (k : String) (v : Json) : List (String × Json) :=
  match fields with
  | [] => [(k, v)]
  | (k2, v2) :: rest => if k2 = k then (k, v) :: rest else (k2, v2) :: objUpsert rest k v

mutual

def parseValue : Nat → List Char → Option (Json × List Char)
  | 0, _ => none
  | fuel + 1, cs =>
    match cs with
    | [] => none
    | c :: rest =>
      if c = 't' then
        match rest with
        | 'r' :: 'u' :: 'e' :: r => some (.bool true, r)
        | _ => none
      else if c = 'f' then
        match rest with
        | 'a' :: 'l' :: 's' :: 'e' :: r => some (.bool false, r)
        | _ => none
      else if c = 'n' then
        match rest with
        | 'u' :: 'l' :: 'l' :: r => some (.null, r)
        | _ => none
      else if c = qMark then
        match parseStrBody [] rest with
        | some (s, r) => some (.str s, r)
        | none => none
      else if c = '[' then parseArrItems fuel (skipWs rest) []
      else if c = Char.ofNat 123 then parseObjFields fuel (skipWs rest) []
      else parseNum cs

def parseArrItems : Nat → List Char → List Json → Option (Json × List Char)
  | 0, _, _ => none
  | fuel + 1, cs, acc =>
    match cs with
    | c :: rest =>
      if c = ']' && acc.isEmpty then some (.arr [], rest)
      else
        match parseValue fuel cs with
        | none => none
        | some (v, r) =>
          match skipWs r with
          | ',' :: r2 => parseArrItems fuel (skipWs r2) (acc ++ [v])
          | ']' :: r2 => some (.arr (acc ++ [v]), r2)
          | _ => none
    | [] => none

def parseObjFields : Nat → List Char → List (String × Json) → Option (Json × List Char)
  | 0, _, _ => none
  | fuel + 1, cs, acc =>
    match cs with
    | c :: rest =>
      if c = Char.ofNat 125 && acc.isEmpty then some (.obj [], rest)
      else if c = qMark then
        match parseStrBody [] rest with
        | none => none
        | some (k, r) =>
          match skipWs r with
          | ':' :: r2 =>
            match parseValue fuel (skipWs r2) with
            | none => none
            | some (v, r3) =>
              match skipWs r3 with
              | ',' :: r4 => parseObjFields fuel (skipWs r4) (objUpsert acc k v)
              | cl :: r4 =>
                if cl = Char.ofNat 125 then some (.obj (objUpsert acc k v), r4) else none
              | [] => none
          | _ => none
      else none
    | [] => none

end

/-- Embeds tryParseJson (src/unnamed/part_001, line 1050): JSON.parse wrapped
so that a parse failure yields null, modelled here as none. -/
def tryParseJson (s : String) : Option Json :=
  match parseValue (2 * s.length + 2) (skipWs s.data) with
  | some (j, r) => if skipWs r = [] then some j else none
  | none => none

/-! ## HAR trace data model

A HarEntry is one transaction of the trace as the analyzer reads it.  Optional
text fields model absent object members, and the JavaScript truthiness test on
them (empty string is falsy) is applied at each use site exactly as in the
source.  The startedDateTime string is modelled by its parsed
epoch-millisecond value, the sort key the source obtains through the Date
constructor. -/

structure HarContent where
  mimeType : String
  text : Option String
deriving DecidableEq, Repr

structure HarRequest where
  method : String
  url : String
  headers : List (String × String)
  postDataText : Option String
deriving DecidableEq, Repr

structure HarResponse where
  status : Int
  statusText : String
  headers : List (String × String)
  content : Option HarContent
deriving DecidableEq, Repr

structure HarEntry where
  request : HarRequest
  response : HarResponse
  startedDateTime : Int
  resourceType : Option String
deriving DecidableEq, Repr

/-- Embeds NOISE_HEADERS (src/unnamed/part_001, lines 490 to 496). -/
def NOISE_HEADERS : List String :=
  ["sec-ch-ua", "sec-ch-ua-mobile", "sec-ch-ua-platform", "sec-ch-ua-full-version-list",
   "sec-ch-ua-arch", "sec-ch-ua-bitness", "sec-ch-ua-model", "sec-ch-ua-wow64",
   "sec-fetch-dest", "sec-fetch-mode", "sec-fetch-site", "sec-fetch-user",
   "upgrade-insecure-requests", "dnt", "connection", "host",
   "accept-encoding", "accept-language"]

/-- Embeds the key set of RESOURCE_TYPES (src/unnamed/part_001, lines 474 to
487); the full resource-type set means every one of these checkboxes is
enabled, so getEnabledTypes returns exactly this set. -/
def RESOURCE_TYPE_KEYS : List String :=
  ["fetch", "xhr", "xmlhttprequest", "document", "script", "stylesheet",
   "image", "font", "media", "websocket", "manifest", "other"]

/-- Mime type of an entry: (entry.response.content && content.mimeType) or
the empty string (line 680). -/
def mimeOf (e : HarEntry) : String :=
  match e.response.content with
  | some c => c.mimeType
  | none => ""

/-- Last suffix check used by strEnds. -/
def strEnds (s suf : String) : Bool := chPre suf.data.reverse s.data.reverse

/-- Models a url.match of a pattern of the shape dot, one of the extensions,
then a question mark or the end of the string. -/
def extMatch (url : String) (exts : List String) : Bool :=
  exts.any (fun ex => strIncludes url ("." ++ ex ++ "?") || strEnds url ("." ++ ex))

/-- Embeds guessResourceType (src/unnamed/part_001, lines 678 to 692). -/
def guessResourceType (e : HarEntry) : String :=
  let url := toLowerStr e.request.url
  let mime := mimeOf e
  if strIncludes mime "html" then "document"
  else if strIncludes mime "javascript" then "script"
  else if strIncludes mime "css" then "stylesheet"
  else if strIncludes mime "image" then "image"
  else if strIncludes mime "font" then "font"
  else if strIncludes mime "json" || strIncludes mime "xml" then "fetch"
  else if extMatch url ["js", "mjs"] then "script"
  else if extMatch url ["css"] then "stylesheet"
  else if extMatch url ["png", "jpg", "jpeg", "gif", "svg", "webp", "ico"] then "image"
  else if extMatch url ["woff2", "woff", "ttf", "otf", "eot"] then "font"
  else "other"

/-! ## URL parsing

parseEntry reads host, pathname and search off a URL object.  The model below
covers the three components for ordinary absolute URLs: scheme up to the
first colon-slash-slash, host up to the next slash, question mark or hash,
pathname up to the next question mark or hash, search from the question mark
to the hash.  No dependency claim reads these three fields, so the model only
needs to be a reasonable stand-in for the browser URL constructor. -/

structure UrlParts where
  host : String
  pathname : String
  search : String
deriving DecidableEq, Repr

def takeUntil (stop : List Char) : List Char → List Char × List Char
  | [] => ([], [])
  | c :: cs =>
    if stop.contains c then ([], c :: cs)
    else
      let r := takeUntil stop cs
      (c :: r.1, r.2)

def dropScheme : List Char → List Char
  | ':' :: '/' :: '/' :: rest => rest
  | _ :: cs => dropScheme cs
  | [] => []

def parseUrl (url : String) : UrlParts :=
  let rest := dropScheme url.data
  let hp := takeUntil ['/', '?', Char.ofNat 35] rest
  match hp.2 with
  | [] => ⟨String.mk hp.1, "/", ""⟩
  | c :: _ =>
    if c = '/' then
      let pp := takeUntil ['?', Char.ofNat 35] hp.2
      let srch :=
        match pp.2 with
        | q :: _ => if q = '?' then String.mk (takeUntil [Char.ofNat 35] pp.2).1 else ""
        | [] => ""
      ⟨String.mk hp.1, String.mk pp.1, srch⟩
    else
      let srch := if c = '?' then String.mk (takeUntil [Char.ofNat 35] hp.2).1 else ""
      ⟨String.mk hp.1, "/", srch⟩

/-! ## Record extraction: parseEntry (src/unnamed/part_001, lines 617 to 676) -/

/-- Insertion-ordered association-list update with the JavaScript object
property rule: position of the first assignment, value of the last. -/
def objSetStr (m : List (String × String)) (k v : String) : List (String × String) :=
  match m with
  | [] => [(k, v)]
  | (k2, v2) :: rest => if k2 = k then (k, v) :: rest else (k2, v2) :: objSetStr rest k v

/-- Embeds the header filtering loops of parseEntry (lines 623 to 636): each
header is dropped when the show-all flag is off and its lowercased name is on
the noise denylist, otherwise assigned into the header object. -/
def buildHeaders (hs : List (String × String)) (allHeaders : Bool) : List (String × String) :=
  hs.foldl
    (fun acc h =>
      if !allHeaders && NOISE_HEADERS.contains (toLowerStr h.1) then acc
      else objSetStr acc h.1 h.2)
    []

/-- Embeds the request body expression of parseEntry (line 641):
tryParseJson(text) or-else the raw text, where a falsy parse result (null,
false, zero, empty string) falls through to the raw text. -/
def parseReqBody (t : String) : Json :=
  match tryParseJson t with
  | some v => if truthy v then v else Json.str t
  | none => Json.str t

/-- Embeds the response body logic of parseEntry (lines 645 to 652): parse,
then keep the raw text instead when the parse result is falsy and the text is
under 5000 characters. -/
def parseRespBody (t : String) : Option Json :=
  let r := tryParseJson t
  let falsy :=
    match r with
    | none => true
    | some v => !truthy v
  if falsy && t.length < 5000 then some (Json.str t) else r

/-- Response projection of a request record. -/
structure RespRec where
  status : Int
  statusText : String
  contentType : String
  headers : List (String × String)
  body : Option Json

/-- Request record produced by parseEntry. -/
structure Req where
  index : Nat
  name : String
  method : String
  url : String
  host : String
  path : String
  headers : List (String × String)
  body : Option Json
  response : RespRec
  time : Int
  resourceType : String

/-- Embeds parseEntry (src/unnamed/part_001, lines 617 to 676). -/
def parseEntry (entry : HarEntry) (index : Nat) (allHeaders : Bool) : Req :=
  let req := entry.request
  let res := entry.response
  let u := parseUrl req.url
  let headers := buildHeaders req.headers allHeaders
  let resHeaders := buildHeaders res.headers allHeaders
  let body : Option Json :=
    match req.postDataText with
    | some t => if t != "" then some (parseReqBody t) else none
    | none => none
  let responseBody : Option Json :=
    match res.content with
    | some c =>
      match c.text with
      | some t => if t != "" then parseRespBody t else none
      | none => none
    | none => none
  { index := index
    name := req.method ++ " " ++ u.pathname
    method := req.method
    url := req.url
    host := u.host
    path := u.pathname ++ u.search
    headers := headers
    body := body
    response :=
      { status := res.status
        statusText := res.statusText
        contentType := mimeOf entry
        headers := resHeaders
        body := responseBody }
    time := entry.startedDateTime
    resourceType :=
      match entry.resourceType with
      | some t => if t != "" then t else guessResourceType entry
      | none => guessResourceType entry }

/-! ## Filtering and ordering (process, src/unnamed/part_001, lines 574 to 592) -/

/-- Computed resource type of an entry as the filter sees it: the explicit
annotation when truthy, else the heuristic guess, lowercased (line 582). -/
def computedTypeLower (e : HarEntry) : String :=
  toLowerStr
    (match e.resourceType with
     | some t => if t != "" then t else guessResourceType e
     | none => guessResourceType e)

/-- Embeds the filter callback of process (lines 581 to 586). -/
def keepEntry (enabled : List String) (excludes : List String) (e : HarEntry) : Bool :=
  if !(enabled.contains (computedTypeLower e)) then false
  else !(excludes.any (fun p => strIncludes e.request.url p))

/-- Insert an entry after every entry whose timestamp is not strictly larger,
the step of a stable insertion sort on the start timestamp. -/
def insertByTime (e : HarEntry) : List HarEntry → List HarEntry
  | [] => [e]
  | f :: fs =>
    if e.startedDateTime < f.startedDateTime then e :: f :: fs
    else f :: insertByTime e fs

/-- Models the stable ascending sort of process (line 589): the JavaScript
array sort with a consistent comparator is stable, and a stable ascending
order is unique, so any stable sorted implementation computes it. -/
def sortByTime (l : List HarEntry) : List HarEntry :=
  l.foldl (fun acc e => insertByTime e acc) []

/-- Filter then sort, the first two steps of process (lines 581 to 589). -/
def filteredSorted (entries : List HarEntry) (enabled excludes : List String) : List HarEntry :=
  sortByTime (entries.filter (keepEntry enabled excludes))

def mapIdxFrom (i : Nat) (f : Nat → HarEntry → Req) : List HarEntry → List Req
  | [] => []
  | a :: as => f i a :: mapIdxFrom (i + 1) f as

/-- Embeds the record extraction step of process (line 592): the filtered
sorted entries mapped through parseEntry with their positions. -/
def processRequests (entries : List HarEntry) (enabled excludes : List String)
    (allHeaders : Bool) : List Req :=
  mapIdxFrom 0 (fun i e => parseEntry e i allHeaders) (filteredSorted entries enabled excludes)

/-! ## Dependency detection (src/unnamed/part_001, lines 695 to 791)

The Value Index is a JavaScript Map from string value to producing record:
an insertion-ordered association list whose set operation replaces in place,
and whose iteration order is the list order. -/

/-- Producer of an indexed value: record position and field path. -/
structure Src where
  reqIndex : Nat
  path : String
deriving DecidableEq, Repr

abbrev ValueMap := List (String × Src)

/-- Models Map.get. -/
def mapGet (m : ValueMap) (k : String) : Option Src :=
  match m with
  | [] => none
  | (k2, v) :: rest => if k2 = k then some v else mapGet rest k

/-- Models Map.set: replace in place when the key is present, else append. -/
def mapSet (m : ValueMap) (k : String) (v : Src) : ValueMap :=
  match m with
  | [] => [(k, v)]
  | (k2, v2) :: rest => if k2 = k then (k, v) :: rest else (k2, v2) :: mapSet rest k v

mutual

/-- Embeds indexValues (src/unnamed/part_001, lines 721 to 739): walk the
structured response body, and at each leaf string of length over 8 and under
1000 that has neither an ISO date nor a URL scheme at its start, map the raw
value to the producing record index and field path. -/
def indexValues (j : Json) (reqIndex : Nat) (pre : String) (m : ValueMap) : ValueMap :=
  match j with
  | .arr items => indexArr items 0 reqIndex pre m
  | .obj fields => indexObj fields reqIndex pre m
  | .str s =>
    if s.length > 8 && s.length < 1000 then
      if datePre s then m
      else if urlPre s then m
      else mapSet m s ⟨reqIndex, pre⟩
    else m
  | _ => m

/-- Array case of indexValues: items in order, with bracketed index paths. -/
def indexArr (items : List Json) (k : Nat) (reqIndex : Nat) (pre : String) (m : ValueMap) :
    ValueMap :=
  match items with
  | [] => m
  | item :: rest =>
    indexArr rest (k + 1) reqIndex pre
      (indexValues item reqIndex (pre ++ "[" ++ toString k ++ "]") m)

/-- Object case of indexValues: fields in order, with dotted key paths. -/
def indexObj (fields : List (String × Json)) (reqIndex : Nat) (pre : String) (m : ValueMap) :
    ValueMap :=
  match fields with
  | [] => m
  | (key, val) :: rest =>
    indexObj rest reqIndex pre
      (indexValues val reqIndex (if pre = "" then key else pre ++ "." ++ key) m)

end

mutual

/-- Embeds walkValues (src/unnamed/part_001, lines 783 to 791) as the list of
leaf strings in traversal order; applying the callback to each of them in
order is modelled by folding over this list. -/
def walkValues : Json → List String
  | .arr items => walkList items
  | .obj fields => walkFields fields
  | .str s => [s]
  | _ => []

def walkList : List Json → List String
  | [] => []
  | j :: rest => walkValues j ++ walkList rest

def walkFields : List (String × Json) → List String
  | [] => []
  | (_, v) :: rest => walkValues v ++ walkFields rest

end

/-- One match recorded by findDepsInRequest. -/
structure Found where
  sourceIndex : Nat
  path : String
  matchedValue : String
deriving DecidableEq, Repr

/-- State of one findDepsInRequest call: the found list and the seen set of
source record indexes, the latter modelled as the list of its insertions. -/
structure FState where
  found : List Found
  seen : List Nat
deriving DecidableEq, Repr

/-- Embeds the substring fallback loop of checkValue (lines 754 to 760): for
every indexed value in map order, when the candidate contains it and its
source is not yet seen, record an edge and mark the source seen. -/
def subScan (val : String) : List (String × Src) → FState → FState
  | [], st => st
  | (mapVal, source) :: rest, st =>
    if strIncludes val mapVal && !st.seen.contains source.reqIndex then
      subScan val rest
        ⟨st.found ++ [⟨source.reqIndex, source.path, mapVal⟩], st.seen ++ [source.reqIndex]⟩
    else subScan val rest st

/-- Embeds checkValue (src/unnamed/part_001, lines 745 to 761): candidates of
length at most 8 are ignored; an exact hit on an unseen source records an
edge and stops; otherwise the substring fallback scans the whole index. -/
def checkValue (vm : ValueMap) (st : FState) (val : String) : FState :=
  if val.length ≤ 8 then st
  else
    match mapGet vm val with
    | some source =>
      if !st.seen.contains source.reqIndex then
        ⟨st.found ++ [⟨source.reqIndex, source.path, val⟩], st.seen ++ [source.reqIndex]⟩
      else subScan val vm st
    | none => subScan val vm st

/-- Candidate strings of a record in scan order (lines 763 to 778): header
values, then the URL, then the body when truthy: the body itself when it is a
string, else its leaf strings. -/
def candidateVals (req : Req) : List String :=
  req.headers.map (fun h => h.2) ++ [req.url] ++
    (match req.body with
     | some b =>
       if truthy b then
         match b with
         | .str s => [s]
         | _ => walkValues b
       else []
     | none => [])

/-- Embeds findDepsInRequest (src/unnamed/part_001, lines 741 to 781). -/
def findDepsInRequest (req : Req) (vm : ValueMap) : List Found :=
  ((candidateVals req).foldl (checkValue vm) ⟨[], []⟩).found

/-- Dependency edge; the source fields are named from, to, via and value, and
from is renamed here because it is reserved in Lean. -/
structure Dep where
  fromIdx : Nat
  toIdx : Nat
  via : String
  value : String
deriving DecidableEq, Repr

/-- Indexing step of the detectDependencies loop (lines 712 to 715): the
response body is indexed exactly when it is truthy and of object type in
JavaScript, which holds exactly for arrays and objects (a JSON null parses to
the falsy JavaScript null even though its typeof is object). -/
def indexStep (req : Req) (i : Nat) (vm : ValueMap) : ValueMap :=
  match req.response.body with
  | some j =>
    match j with
    | .arr _ => indexValues j i "" vm
    | .obj _ => indexValues j i "" vm
    | _ => vm
  | none => vm

/-- Main loop of detectDependencies (lines 700 to 716): for each record, scan
it against the index built so far (skipping the record at position zero),
then index its structured response body values.  Returns the edges and the
final Value Index. -/
def detectLoop : List Req → Nat → ValueMap → List Dep × ValueMap
  | [], _, vm => ([], vm)
  | req :: rest, i, vm =>
    let newDeps :=
      if 0 < i then
        (findDepsInRequest req vm).map (fun f => Dep.mk f.sourceIndex i f.path f.matchedValue)
      else []
    let r := detectLoop rest (i + 1) (indexStep req i vm)
    (newDeps ++ r.1, r.2)

/-- Embeds detectDependencies (src/unnamed/part_001, lines 695 to 719). -/
def detectDependencies (reqs : List Req) : List Dep := (detectLoop reqs 0 []).1

/-- Value Index left after running detectDependencies on a record list. -/
def finalValueMap (reqs : List Req) : ValueMap := (detectLoop reqs 0 []).2

/-- Full data pipeline of process (lines 574 to 595): filter, sort, extract
records, detect dependencies. -/
def processDeps (entries : List HarEntry) (enabled excludes : List String)
    (allHeaders : Bool) : List Dep :=
  detectDependencies (processRequests entries enabled excludes allHeaders)

/-! ## Mermaid diagram (renderMermaid, src/unnamed/part_001, lines 857 to 913)

The generated flowchart text is modelled line by line as a structured list:
one constructor per kind of emitted line, in emission order.  The style
payloads keep the literal style strings of the source. -/

def escM1 : List Char → List Char
  | [] => []
  | c :: cs =>
    if c = qMark then Char.ofNat 35 :: 'q' :: 'u' :: 'o' :: 't' :: ';' :: escM1 cs
    else c :: escM1 cs

def escM2 : List Char → List Char
  | [] => []
  | c :: cs =>
    if c = '<' || c = '>' || c = Char.ofNat 123 || c = Char.ofNat 125 || c = '|' then
      ' ' :: escM2 cs
    else c :: escM2 cs

/-- Embeds escMermaid (line 1060): quotes replaced by a quot entity, then
angle brackets, braces and pipes replaced by spaces. -/
def escMermaid (s : String) : String := String.mk (escM2 (escM1 s.data))

/-- Embeds truncatePath (line 1064). -/
def truncatePath (path : String) (max : Nat) : String :=
  if path.length ≤ max then path
  else "..." ++ String.mk (path.data.drop (path.length - (max - 3)))

/-- Last dot-separated segment, as split on dots followed by pop (line 891). -/
def lastSeg (s : String) : String :=
  String.mk ((takeUntil ['.'] s.data.reverse).1.reverse)

/-- One emitted line of the mermaid flowchart source. -/
inductive MLine where
  | header
  | startNode
  | nodeDef (id : Nat) (label : String)
  | styleLine (id : Nat) (style : String)
  | edgeLine (src dst : Nat) (label : String)
  | startEdge (dst : Nat)
  | moreNode (count : Nat)
  | moreStyle
deriving DecidableEq, Repr

/-- Node block of renderMermaid (lines 872 to 884): one node definition per
diagram request, followed by a style line for redirect or error statuses. -/
def nodeLines : List Req → List MLine
  | [] => []
  | r :: rest =>
    let label := r.method ++ " " ++ truncatePath r.path 40
    MLine.nodeDef r.index (escMermaid label ++ "<br/>" ++ toString r.response.status) ::
      ((if r.response.status ≥ 400 then
          [MLine.styleLine r.index "fill:#f8d7da,stroke:#dc3545,color:#721c24"]
        else if r.response.status ≥ 300 then
          [MLine.styleLine r.index "fill:#fff3cd,stroke:#ffc107,color:#856404"]
        else []) ++ nodeLines rest)

/-- Edge block of renderMermaid (lines 887 to 893): edges whose endpoints are
both under the node cap, returned together with the accumulated list of
destinations that gained an incoming edge. -/
def edgeLines (maxNodes : Nat) : List Dep → List MLine × List Nat
  | [] => ([], [])
  | d :: rest =>
    if d.toIdx ≥ maxNodes || d.fromIdx ≥ maxNodes then edgeLines maxNodes rest
    else
      let r := edgeLines maxNodes rest
      (MLine.edgeLine d.fromIdx d.toIdx (escMermaid (lastSeg d.via)) :: r.1, d.toIdx :: r.2)

/-- Start anchors of renderMermaid (lines 896 to 900). -/
def startEdges (hasIncoming : List Nat) : List Req → List MLine
  | [] => []
  | r :: rest =>
    if hasIncoming.contains r.index then startEdges hasIncoming rest
    else MLine.startEdge r.index :: startEdges hasIncoming rest

/-- Embeds the graph text construction of renderMermaid (lines 857 to 905) as
the structured list of emitted lines, in order. -/
def renderMermaidLines (requests : List Req) (deps : List Dep) : List MLine :=
  if requests.isEmpty then []
  else
    let maxNodes := 50
    let diagramRequests := requests.take maxNodes
    let el := edgeLines maxNodes deps
    [MLine.header, MLine.startNode] ++ nodeLines diagramRequests ++ el.1 ++
      startEdges el.2 diagramRequests ++
      (if requests.length > maxNodes then
        [MLine.moreNode (requests.length - maxNodes), MLine.moreStyle]
       else [])

/-- Lines of the generated flowchart that define a node: the synthetic start
node, the per-request nodes, and the overflow marker node. -/
def isNodeLine : MLine → Bool
  | .startNode => true
  | .nodeDef _ _ => true
  | .moreNode _ => true
  | _ => false

/-- Number of nodes in the generated diagram. -/
def mermaidNodeCount (requests : List Req) (deps : List Dep) : Nat :=
  (renderMermaidLines requests deps).countP (fun l => isNodeLine l)

/-! ## Trace ingestion (handleFile, src/unnamed/part_001, lines 550 to 571)

The model covers the load handler, after the file-name suffix guard: parse
the text as JSON, then require a truthy top-level log member whose entries
member is an array; any failure shows one error and no processing runs. -/

def lookupField : List (String × Json) → String → Option Json
  | [], _ => none
  | (k2, v) :: rest, k => if k2 = k then some v else lookupField rest k

/-- Member access on a parsed JSON value: none models undefined.  A JSON null
receiver throws in JavaScript, which lands in the same catch block as a falsy
member, so none gives the same observable outcome. -/
def jsGet (j : Json) (k : String) : Option Json :=
  match j with
  | .obj fields => lookupField fields k
  | _ => none

def isArrJson : Json → Bool
  | .arr _ => true
  | _ => false

/-- Embeds the structural check of handleFile (line 562): rawHar.log is
truthy and rawHar.log.entries is an array. -/
def hasLogEntries (j : Json) : Bool :=
  match jsGet j "log" with
  | some lg =>
    truthy lg &&
      (match jsGet lg "entries" with
       | some e => isArrJson e
       | none => false)
  | none => false

/-- Embeds the try block of the load handler (lines 560 to 568): parse, check
the top-level shape, and either hand the trace to processing or fail with one
user-visible error before any processing. -/
def ingest (text : String) : Except String Json :=
  match tryParseJson text with
  | none => Except.error "Failed to parse HAR: invalid JSON"
  | some har =>
    if hasLogEntries har then Except.ok har
    else Except.error "Failed to parse HAR: Invalid HAR format: missing log.entries"

/-! ## Lemmas about the Value Index -/

/-- The indexing guard of indexValues as one predicate: length over 8 and
under 1000, no ISO date at the start, no URL scheme at the start. -/
def goodKey (s : String) : Bool :=
  s.length > 8 && s.length < 1000 && !datePre s && !urlPre s

/-- Invariant of the scan state within one findDepsInRequest call, with i the
strict upper bound on the producing indexes in the Value Index: every found
match has a producing index under i, a matched value longer than 8, and a
producing index already in the seen set, and the producing indexes of the
found list are pairwise distinct. -/
def StInv (i : Nat) (st : FState) : Prop :=
  (∀ f ∈ st.found, f.sourceIndex < i ∧ 8 < f.matchedValue.length ∧ f.sourceIndex ∈ st.seen) ∧
  (st.found.map (fun f => f.sourceIndex)).Nodup

/-- Invariant of the Value Index before record i is scanned: every entry
passed the indexing guard and was produced by an earlier record. -/
def MapInv (i : Nat) (vm : ValueMap) : Prop :=
  ∀ kv ∈ vm, goodKey kv.1 = true ∧ kv.2.reqIndex < i

/-- Ascending order on the parsed start timestamps. -/
def timeLE (a b : HarEntry) : Prop := a.startedDateTime ≤ b.startedDateTime

/-- Lines of the flowchart that are per-request nodes. -/
def isReqNodeLine : MLine → Bool
  | .nodeDef _ _ => true
  | _ => false

/-! ## Concrete traces and records used to settle the example claims -/

/-- Response record with the given body and a 200 status. -/
def mkResp (b : Option Json) : RespRec :=
  { status := 200, statusText := "OK", contentType := "", headers := [], body := b }

/-- Minimal request record with position i, used to build large traces. -/
def mkReq (i : Nat) : Req :=
  { index := i, name := "GET /u", method := "GET", url := "http://h/u", host := "h", path := "/u",
    headers := [], body := none, response := mkResp none, time := (i : Int),
    resourceType := "fetch" }

/-- Record producing one token value in its response body. -/
def prodReq : Req :=
  { index := 0, name := "GET /a", method := "GET", url := "http://h/a", host := "h", path := "/a",
    headers := [], body := none,
    response := mkResp (some (Json.obj [("tok", Json.str "SECRETTOKEN999")])),
    time := 0, resourceType := "fetch" }

/-- Record whose only long candidate is a date-prefixed header value embedding
the token produced by prodReq. -/
def dateHeaderReq : Req :=
  { index := 1, name := "GET /b", method := "GET", url := "http://h/b", host := "h", path := "/b",
    headers := [("X-Date", "2024-01-01 SECRETTOKEN999")], body := none,
    response := mkResp none, time := 1, resourceType := "fetch" }

/-- Record producing a date-prefixed response string. -/
def dateProdReq : Req :=
  { index := 0, name := "GET /d", method := "GET", url := "http://h/d", host := "h", path := "/d",
    headers := [], body := none,
    response := mkResp (some (Json.obj [("d", Json.str "2024-01-01T12:00:00Z")])),
    time := 0, resourceType := "fetch" }

/-- Record repeating the date string of dateProdReq verbatim in a header. -/
def dateRepeatReq : Req :=
  { index := 1, name := "GET /e", method := "GET", url := "http://h/e", host := "h", path := "/e",
    headers := [("X-Date", "2024-01-01T12:00:00Z")], body := none,
    response := mkResp none, time := 1, resourceType := "fetch" }

/-- Record producing two distinct long values in one response body. -/
def twoValReq : Req :=
  { index := 0, name := "GET /a", method := "GET", url := "http://h/a", host := "h", path := "/a",
    headers := [], body := none,
    response := mkResp (some (Json.obj
      [("a", Json.str "AAAAAAAAAA1"), ("b", Json.str "BBBBBBBBBB2")])),
    time := 0, resourceType := "fetch" }

/-- Record with one header containing both values of twoValReq as substrings. -/
def combinedReq : Req :=
  { index := 1, name := "GET /b", method := "GET", url := "http://h/b", host := "h", path := "/b",
    headers := [("X-Combined", "AAAAAAAAAA1 BBBBBBBBBB2")], body := none,
    response := mkResp none, time := 1, resourceType := "fetch" }

/-- Trace entry whose JSON response body carries a token. -/
def loginEntry : HarEntry :=
  { request := { method := "POST", url := "http://a/login", headers := [], postDataText := none }
    response := { status := 200, statusText := "OK", headers := [],
                  content := some { mimeType := "application/json",
                                    text := some "\x7b\"token\":\"abcdef1234567890\"\x7d" } }
    startedDateTime := 0
    resourceType := some "fetch" }

/-- Trace entry presenting the token of loginEntry inside a bearer header. -/
def meEntry : HarEntry :=
  { request := { method := "GET", url := "http://a/me",
                 headers := [("Authorization", "Bearer abcdef1234567890")], postDataText := none }
    response := { status := 200, statusText := "OK", headers := [], content := none }
    startedDateTime := 1
    resourceType := some "fetch" }

/-- Trace entry whose JSON response body carries a secret value. -/
def tokEntry : HarEntry :=
  { request := { method := "GET", url := "http://a/t", headers := [], postDataText := none }
    response := { status := 200, statusText := "OK", headers := [],
                  content := some { mimeType := "application/json",
                                    text := some "\x7b\"tok\":\"SECRETVALUE12345\"\x7d" } }
    startedDateTime := 0, resourceType := some "fetch" }

/-- Trace entry carrying the secret of tokEntry only inside a denylisted
noise header. -/
def langEntry : HarEntry :=
  { request := { method := "GET", url := "http://a/u",
                 headers := [("accept-language", "SECRETVALUE12345")], postDataText := none }
    response := { status := 200, statusText := "OK", headers := [], content := none }
    startedDateTime := 1, resourceType := some "fetch" }

/-- Trace entry with an explicit resource type outside the fixed key set. -/
def pingEntry : HarEntry :=
  { request := { method := "POST", url := "http://a/ping", headers := [], postDataText := none }
    response := { status := 204, statusText := "", headers := [], content := none }
    startedDateTime := 0, resourceType := some "ping" }

/-- A 5000 character text that is not valid JSON. -/
def bigX : String := String.mk (List.replicate 5000 'x')

/-- Trace entry whose request body is the oversized unparseable text bigX. -/
def bigBodyEntry : HarEntry :=
  { request := { method := "POST", url := "http://a/big", headers := [], postDataText := some bigX }
    response := { status := 200, statusText := "OK", headers := [], content := none }
    startedDateTime := 0, resourceType := some "fetch" }

/-- Trace entry with a small unparseable request body and response body. -/
def smallBadEntry : HarEntry :=
  { request := { method := "POST", url := "http://a/s", headers := [],
                 postDataText := some "notjson[[" }
    response := { status := 200, statusText := "OK", headers := [],
                  content := some { mimeType := "text/plain", text := some "notjson[[" } }
    startedDateTime := 0, resourceType := some "fetch" }

theorem goodKey_spec (s : String) (h : goodKey s = true) :
    8 < s.length ∧ s.length < 1000 ∧ datePre s = false ∧ urlPre s = false := by
  simp only [goodKey, Bool.and_eq_true, Bool.not_eq_true', decide_eq_true_eq] at h
  exact ⟨h.1.1.1, h.1.1.2, h.1.2, h.2⟩

theorem mapSet_mem (m : ValueMap) (k : String) (v : Src) :
    ∀ kv ∈ mapSet m k v, kv ∈ m ∨ kv = (k, v) := by
  induction m with
  | nil =>
    intro kv h
    simp [mapSet] at h
    exact Or.inr h
  | cons hd tl ih =>
    obtain ⟨k2, v2⟩ := hd
    intro kv h
    simp only [mapSet] at h
    by_cases he : k2 = k
    · rw [if_pos he] at h
      rcases List.mem_cons.mp h with h1 | h1
      · exact Or.inr h1
      · exact Or.inl (List.mem_cons_of_mem _ h1)
    · rw [if_neg he] at h
      rcases List.mem_cons.mp h with h1 | h1
      · exact Or.inl (by simp [h1])
      · rcases ih kv h1 with h2 | h2
        · exact Or.inl (List.mem_cons_of_mem _ h2)
        · exact Or.inr h2

theorem mapGet_mem (m : ValueMap) (k : String) (v : Src) (h : mapGet m k = some v) :
    (k, v) ∈ m := by
  induction m with
  | nil => simp [mapGet] at h
  | cons hd tl ih =>
    obtain ⟨k2, v2⟩ := hd
    simp only [mapGet] at h
    by_cases he : k2 = k
    · rw [if_pos he] at h
      injection h with h
      subst he
      subst h
      exact List.mem_cons_self _ _
    · rw [if_neg he] at h
      exact List.mem_cons_of_mem _ (ih h)

mutual

theorem indexValues_mem : ∀ (j : Json) (i : Nat) (pre : String) (m : ValueMap),
    ∀ kv ∈ indexValues j i pre m, kv ∈ m ∨ (goodKey kv.1 = true ∧ kv.2.reqIndex = i)
  | .null, _, _, _ => by
    intro kv h
    exact Or.inl h
  | .bool _, _, _, _ => by
    intro kv h
    exact Or.inl h
  | .num _ _, _, _, _ => by
    intro kv h
    exact Or.inl h
  | .str s, i, pre, m => by
    intro kv h
    simp only [indexValues] at h
    by_cases h1 : (s.length > 8 && s.length < 1000) = true
    · rw [if_pos h1] at h
      by_cases h2 : datePre s = true
      · rw [if_pos h2] at h
        exact Or.inl h
      · rw [if_neg h2] at h
        by_cases h3 : urlPre s = true
        · rw [if_pos h3] at h
          exact Or.inl h
        · rw [if_neg h3] at h
          rcases mapSet_mem m s ⟨i, pre⟩ kv h with h4 | h4
          · exact Or.inl h4
          · right
            subst h4
            refine ⟨?_, rfl⟩
            have hd : datePre s = false := by
              revert h2; cases datePre s <;> simp
            have hu : urlPre s = false := by
              revert h3; cases urlPre s <;> simp
            simp [goodKey, h1, hd, hu]
    · rw [if_neg h1] at h
      exact Or.inl h
  | .arr items, i, pre, m => by
    intro kv h
    exact indexArr_mem items 0 i pre m kv h
  | .obj fields, i, pre, m => by
    intro kv h
    exact indexObj_mem fields i pre m kv h

theorem indexArr_mem : ∀ (items : List Json) (k i : Nat) (pre : String) (m : ValueMap),
    ∀ kv ∈ indexArr items k i pre m, kv ∈ m ∨ (goodKey kv.1 = true ∧ kv.2.reqIndex = i)
  | [], _, _, _, _ => by
    intro kv h
    exact Or.inl h
  | item :: rest, k, i, pre, m => by
    intro kv h
    rcases indexArr_mem rest (k + 1) i pre
        (indexValues item i (pre ++ "[" ++ toString k ++ "]") m) kv h with h1 | h1
    · exact indexValues_mem item i (pre ++ "[" ++ toString k ++ "]") m kv h1
    · exact Or.inr h1

theorem indexObj_mem : ∀ (fields : List (String × Json)) (i : Nat) (pre : String) (m : ValueMap),
    ∀ kv ∈ indexObj fields i pre m, kv ∈ m ∨ (goodKey kv.1 = true ∧ kv.2.reqIndex = i)
  | [], _, _, _ => by
    intro kv h
    exact Or.inl h
  | (key, val) :: rest, i, pre, m => by
    intro kv h
    rcases indexObj_mem rest i pre
        (indexValues val i (if pre = "" then key else pre ++ "." ++ key) m) kv h with h1 | h1
    · exact indexValues_mem val i (if pre = "" then key else pre ++ "." ++ key) m kv h1
    · exact Or.inr h1

end

/-! ## Lemmas about the scan of one record -/

theorem stInv_push (i : Nat) (st : FState) (hst : StInv i st) (f : Found)
    (hidx : f.sourceIndex < i) (hval : 8 < f.matchedValue.length)
    (hseen : f.sourceIndex ∉ st.seen) :
    StInv i ⟨st.found ++ [f], st.seen ++ [f.sourceIndex]⟩ := by
  obtain ⟨hmem, hnd⟩ := hst
  constructor
  · intro g hg
    rcases List.mem_append.mp hg with hg | hg
    · have h2 := hmem g hg
      exact ⟨h2.1, h2.2.1, List.mem_append_left _ h2.2.2⟩
    · simp at hg
      subst hg
      exact ⟨hidx, hval, by simp⟩
  · rw [List.map_append]
    simp only [List.map_cons, List.map_nil]
    rw [List.nodup_append]
    refine ⟨hnd, by simp, ?_⟩
    intro x hx
    simp only [List.mem_singleton]
    rcases List.mem_map.mp hx with ⟨g, hg, hgx⟩
    intro hcontra
    subst hcontra
    have h3 := (hmem g hg).2.2
    rw [hgx] at h3
    exact hseen h3

theorem contains_false_not_mem (l : List Nat) (a : Nat)
    (h : (!l.contains a) = true) : a ∉ l := by
  simp only [Bool.not_eq_true'] at h
  intro hmem
  have h3 : l.elem a = true := List.elem_iff.mpr hmem
  have h2 : l.elem a = false := h
  rw [h2] at h3
  exact Bool.noConfusion h3

theorem subScan_inv (val : String) (i : Nat) (vm : ValueMap) (hvm : MapInv i vm) :
    ∀ (rem : List (String × Src)), (∀ e ∈ rem, e ∈ vm) →
      ∀ st, StInv i st → StInv i (subScan val rem st) := by
  intro rem
  induction rem with
  | nil =>
    intro _ st hst
    exact hst
  | cons hd tl ih =>
    obtain ⟨mapVal, source⟩ := hd
    intro hsub st hst
    simp only [subScan]
    by_cases hc : (strIncludes val mapVal && !st.seen.contains source.reqIndex) = true
    · rw [if_pos hc]
      apply ih (fun e he => hsub e (List.mem_cons_of_mem _ he))
      rcases Bool.and_eq_true_iff.mp hc with ⟨_, hseen⟩
      have hsrc : (mapVal, source) ∈ vm := hsub _ (List.mem_cons_self _ _)
      have hgood := hvm _ hsrc
      exact stInv_push i st hst ⟨source.reqIndex, source.path, mapVal⟩ hgood.2
        (goodKey_spec _ hgood.1).1 (contains_false_not_mem _ _ hseen)
    · rw [if_neg hc]
      exact ih (fun e he => hsub e (List.mem_cons_of_mem _ he)) st hst

theorem checkValue_inv (i : Nat) (vm : ValueMap) (hvm : MapInv i vm) (st : FState)
    (hst : StInv i st) (val : String) : StInv i (checkValue vm st val) := by
  unfold checkValue
  by_cases hl : val.length ≤ 8
  · rw [if_pos hl]
    exact hst
  · rw [if_neg hl]
    split
    · rename_i source hg
      by_cases hs : (!st.seen.contains source.reqIndex) = true
      · rw [if_pos hs]
        have hsrc := mapGet_mem vm val source hg
        have hgood := hvm _ hsrc
        exact stInv_push i st hst ⟨source.reqIndex, source.path, val⟩ hgood.2
          (show 8 < val.length by omega) (contains_false_not_mem _ _ hs)
      · rw [if_neg hs]
        exact subScan_inv val i vm hvm vm (fun e he => he) st hst
    · exact subScan_inv val i vm hvm vm (fun e he => he) st hst

theorem foldl_checkValue_inv (i : Nat) (vm : ValueMap) (hvm : MapInv i vm) :
    ∀ (vals : List String) (st : FState), StInv i st →
      StInv i (vals.foldl (checkValue vm) st) := by
  intro vals
  induction vals with
  | nil =>
    intro st hst
    exact hst
  | cons v rest ih =>
    intro st hst
    exact ih (checkValue vm st v) (checkValue_inv i vm hvm st hst v)

theorem findDeps_inv (req : Req) (i : Nat) (vm : ValueMap) (hvm : MapInv i vm) :
    (∀ f ∈ findDepsInRequest req vm, f.sourceIndex < i ∧ 8 < f.matchedValue.length) ∧
    ((findDepsInRequest req vm).map (fun f => f.sourceIndex)).Nodup := by
  have h := foldl_checkValue_inv i vm hvm (candidateVals req) ⟨[], []⟩
    (by constructor <;> simp)
  exact ⟨fun f hf => ⟨(h.1 f hf).1, (h.1 f hf).2.1⟩, h.2⟩

/-! ## Invariants of the detection loop -/

theorem mapInv_mono (i : Nat) (vm : ValueMap) (h : MapInv i vm) : MapInv (i + 1) vm :=
  fun kv hkv => ⟨(h kv hkv).1, Nat.lt_succ_of_lt (h kv hkv).2⟩

theorem mapInv_index (i : Nat) (vm : ValueMap) (h : MapInv i vm) (j : Json) (pre : String) :
    MapInv (i + 1) (indexValues j i pre vm) := by
  intro kv hkv
  rcases indexValues_mem j i pre vm kv hkv with h1 | h1
  · exact ⟨(h kv h1).1, Nat.lt_succ_of_lt (h kv h1).2⟩
  · exact ⟨h1.1, by omega⟩

theorem mapInv_indexStep (req : Req) (i : Nat) (vm : ValueMap) (h : MapInv i vm) :
    MapInv (i + 1) (indexStep req i vm) := by
  unfold indexStep
  cases req.response.body with
  | none => exact mapInv_mono i vm h
  | some j =>
    cases j <;>
      first
        | exact mapInv_mono i vm h
        | exact mapInv_index i vm h _ ""

theorem detectLoop_inv : ∀ (reqs : List Req) (i : Nat) (vm : ValueMap), MapInv i vm →
    (∀ d ∈ (detectLoop reqs i vm).1, d.fromIdx < d.toIdx ∧ i ≤ d.toIdx ∧ 8 < d.value.length) ∧
    List.Pairwise (fun d1 d2 => d1.fromIdx ≠ d2.fromIdx ∨ d1.toIdx ≠ d2.toIdx)
      (detectLoop reqs i vm).1 ∧
    MapInv (i + reqs.length) (detectLoop reqs i vm).2 := by
  intro reqs
  induction reqs with
  | nil =>
    intro i vm hvm
    refine ⟨by simp [detectLoop], by simp [detectLoop], ?_⟩
    simpa [detectLoop] using hvm
  | cons req rest ih =>
    intro i vm hvm
    have hvm2 := mapInv_indexStep req i vm hvm
    obtain ⟨ih1, ih2, ih3⟩ := ih (i + 1) (indexStep req i vm) hvm2
    have hlen : i + (req :: rest).length = i + 1 + rest.length := by
      simp [List.length_cons]
      omega
    by_cases hi : 0 < i
    · have hfd := findDeps_inv req i vm hvm
      have hD1 : (detectLoop (req :: rest) i vm).1 =
          (findDepsInRequest req vm).map (fun f => Dep.mk f.sourceIndex i f.path f.matchedValue)
            ++ (detectLoop rest (i + 1) (indexStep req i vm)).1 := by
        simp [detectLoop, hi]
      have hD2 : (detectLoop (req :: rest) i vm).2 =
          (detectLoop rest (i + 1) (indexStep req i vm)).2 := by
        simp [detectLoop, hi]
      refine ⟨?_, ?_, ?_⟩
      · rw [hD1]
        intro d hd
        rcases List.mem_append.mp hd with hd | hd
        · rcases List.mem_map.mp hd with ⟨f, hf, hfd2⟩
          subst hfd2
          have hh := hfd.1 f hf
          exact ⟨hh.1, Nat.le_refl i, hh.2⟩
        · have hh := ih1 d hd
          exact ⟨hh.1, by omega, hh.2.2⟩
      · rw [hD1, List.pairwise_append]
        refine ⟨?_, ih2, ?_⟩
        · rw [List.pairwise_map]
          have hnd : List.Pairwise (fun a b => a ≠ b)
              ((findDepsInRequest req vm).map (fun f => f.sourceIndex)) := hfd.2
          have hp := List.pairwise_map.mp hnd
          exact hp.imp (fun h => Or.inl h)
        · intro d1 h1 d2 h2
          rcases List.mem_map.mp h1 with ⟨f, hf, hfd2⟩
          subst hfd2
          have hh := ih1 d2 h2
          right
          show i ≠ d2.toIdx
          omega
      · rw [hD2, hlen]
        exact ih3
    · have hD1 : (detectLoop (req :: rest) i vm).1 =
          (detectLoop rest (i + 1) (indexStep req i vm)).1 := by
        simp [detectLoop, hi]
      have hD2 : (detectLoop (req :: rest) i vm).2 =
          (detectLoop rest (i + 1) (indexStep req i vm)).2 := by
        simp [detectLoop, hi]
      refine ⟨?_, ?_, ?_⟩
      · rw [hD1]
        intro d hd
        have hh := ih1 d hd
        exact ⟨hh.1, by omega, hh.2.2⟩
      · rw [hD1]
        exact ih2
      · rw [hD2, hlen]
        exact ih3

/-! ## Lemmas about the stable sort on timestamps -/

theorem insertByTime_mem (e : HarEntry) :
    ∀ (l : List HarEntry) (x : HarEntry), x ∈ insertByTime e l → x = e ∨ x ∈ l := by
  intro l
  induction l with
  | nil =>
    intro x h
    simp [insertByTime] at h
    exact Or.inl h
  | cons f fs ih =>
    intro x h
    simp only [insertByTime] at h
    split at h
    · rcases List.mem_cons.mp h with h | h
      · exact Or.inl h
      · exact Or.inr h
    · rcases List.mem_cons.mp h with h | h
      · exact Or.inr (by simp [h])
      · rcases ih x h with h | h
        · exact Or.inl h
        · exact Or.inr (List.mem_cons_of_mem _ h)

theorem insertByTime_sorted (e : HarEntry) :
    ∀ (l : List HarEntry), List.Pairwise timeLE l → List.Pairwise timeLE (insertByTime e l) := by
  intro l
  induction l with
  | nil =>
    intro _
    simp [insertByTime, List.pairwise_singleton]
  | cons f fs ih =>
    intro hp
    have hp2 := List.pairwise_cons.mp hp
    simp only [insertByTime]
    split
    · rename_i hlt
      refine List.Pairwise.cons ?_ hp
      intro x hx
      rcases List.mem_cons.mp hx with h | h
      · subst h
        unfold timeLE
        omega
      · have h2 := hp2.1 x h
        unfold timeLE at *
        omega
    · rename_i hge
      refine List.Pairwise.cons ?_ (ih hp2.2)
      intro x hx
      rcases insertByTime_mem e fs x hx with h | h
      · subst h
        unfold timeLE
        omega
      · exact hp2.1 x h

theorem filter_time_eq_nil (t : Int) (l : List HarEntry)
    (h : ∀ x ∈ l, t < x.startedDateTime) :
    l.filter (fun x => x.startedDateTime == t) = [] := by
  rw [List.filter_eq_nil_iff]
  intro x hx
  have h2 := h x hx
  simp only [beq_iff_eq]
  omega

theorem insertByTime_filter (e : HarEntry) (t : Int) :
    ∀ (l : List HarEntry), List.Pairwise timeLE l →
      (insertByTime e l).filter (fun x => x.startedDateTime == t) =
        (if e.startedDateTime == t then
          l.filter (fun x => x.startedDateTime == t) ++ [e]
        else l.filter (fun x => x.startedDateTime == t)) := by
  intro l
  induction l with
  | nil =>
    intro _
    simp only [insertByTime, List.filter]
    split <;> rename_i h <;> simp [h]
  | cons f fs ih =>
    intro hp
    have hp2 := List.pairwise_cons.mp hp
    simp only [insertByTime]
    split
    · rename_i hlt
      by_cases he : (e.startedDateTime == t) = true
      · have het : e.startedDateTime = t := by simpa using he
        have hnone : (f :: fs).filter (fun x => x.startedDateTime == t) = [] := by
          apply filter_time_eq_nil
          intro x hx
          rcases List.mem_cons.mp hx with h | h
          · subst h
            omega
          · have h2 := hp2.1 x h
            unfold timeLE at h2
            omega
        rw [List.filter_cons_of_pos (by simpa using he), hnone, if_pos he]
        simp
      · rw [List.filter_cons_of_neg (by simpa using he), if_neg he]
    · rename_i hge
      rw [List.filter_cons, ih hp2.2, List.filter_cons]
      by_cases hf : (f.startedDateTime == t) = true
      · by_cases he : (e.startedDateTime == t) = true
        · simp [hf, he]
        · simp [hf, he]
      · by_cases he : (e.startedDateTime == t) = true
        · simp [hf, he]
        · simp [hf, he]

theorem sortByTime_go :
    ∀ (l acc : List HarEntry), List.Pairwise timeLE acc →
      List.Pairwise timeLE (l.foldl (fun a e => insertByTime e a) acc) ∧
      ∀ t : Int,
        (l.foldl (fun a e => insertByTime e a) acc).filter (fun x => x.startedDateTime == t) =
          acc.filter (fun x => x.startedDateTime == t) ++
            l.filter (fun x => x.startedDateTime == t) := by
  intro l
  induction l with
  | nil =>
    intro acc h
    exact ⟨h, fun t => by simp⟩
  | cons e rest ih =>
    intro acc h
    simp only [List.foldl_cons]
    have h2 := insertByTime_sorted e acc h
    obtain ⟨ihs, ihf⟩ := ih (insertByTime e acc) h2
    refine ⟨ihs, fun t => ?_⟩
    rw [ihf t, insertByTime_filter e t acc h, List.filter_cons]
    by_cases he : (e.startedDateTime == t) = true
    · simp [he]
    · simp [he]

theorem sortByTime_sorted (l : List HarEntry) : List.Pairwise timeLE (sortByTime l) :=
  (sortByTime_go l [] (by simp)).1

theorem sortByTime_stable (l : List HarEntry) (t : Int) :
    (sortByTime l).filter (fun x => x.startedDateTime == t) =
      l.filter (fun x => x.startedDateTime == t) := by
  have h := (sortByTime_go l [] (by simp)).2 t
  simpa using h

/-! ## Lemmas about the filter step -/

theorem keepEntry_empty (enabled : List String) (e : HarEntry) :
    keepEntry enabled [] e = enabled.contains (computedTypeLower e) := by
  unfold keepEntry
  cases h : enabled.contains (computedTypeLower e) <;> simp [h]

/-! ## Lemmas about the diagram node count -/

theorem isNodeLine_header : isNodeLine MLine.header = false := rfl

theorem isNodeLine_startNode : isNodeLine MLine.startNode = true := rfl

theorem isNodeLine_nodeDef (id : Nat) (label : String) :
    isNodeLine (MLine.nodeDef id label) = true := rfl

theorem isNodeLine_styleLine (id : Nat) (s : String) :
    isNodeLine (MLine.styleLine id s) = false := rfl

theorem isNodeLine_edgeLine (a b : Nat) (s : String) :
    isNodeLine (MLine.edgeLine a b s) = false := rfl

theorem isNodeLine_startEdge (a : Nat) : isNodeLine (MLine.startEdge a) = false := rfl

theorem isNodeLine_moreNode (n : Nat) : isNodeLine (MLine.moreNode n) = true := rfl

theorem isNodeLine_moreStyle : isNodeLine MLine.moreStyle = false := rfl

theorem nodeLines_count (l : List Req) :
    (nodeLines l).countP (fun x => isNodeLine x) = l.length := by
  induction l with
  | nil => simp [nodeLines]
  | cons r rest ih =>
    simp only [nodeLines, List.length_cons]
    split
    · simp [List.countP_cons, List.countP_append, isNodeLine_nodeDef, isNodeLine_styleLine, ih]
    · split
      · simp [List.countP_cons, List.countP_append, isNodeLine_nodeDef, isNodeLine_styleLine, ih]
      · simp [List.countP_cons, isNodeLine_nodeDef, ih]

theorem edgeLines_count (m : Nat) (deps : List Dep) :
    (edgeLines m deps).1.countP (fun x => isNodeLine x) = 0 := by
  induction deps with
  | nil => simp [edgeLines]
  | cons d rest ih =>
    simp only [edgeLines]
    split
    · exact ih
    · simp [List.countP_cons, isNodeLine_edgeLine, ih]

theorem startEdges_count (hi : List Nat) (l : List Req) :
    (startEdges hi l).countP (fun x => isNodeLine x) = 0 := by
  induction l with
  | nil => simp [startEdges]
  | cons r rest ih =>
    simp only [startEdges]
    split
    · exact ih
    · simp [List.countP_cons, isNodeLine_startEdge, ih]

theorem mermaidNodeCount_le (requests : List Req) (deps : List Dep) :
    mermaidNodeCount requests deps ≤ 52 := by
  unfold mermaidNodeCount renderMermaidLines
  split
  · simp
  · have htake : (requests.take 50).length ≤ 50 := by
      rw [List.length_take]
      omega
    by_cases hlen : requests.length > 50
    · simp [hlen, List.countP_append, List.countP_cons, nodeLines_count, edgeLines_count,
        startEdges_count, isNodeLine_header, isNodeLine_startNode, isNodeLine_moreNode,
        isNodeLine_moreStyle]
    · simp [hlen, List.countP_append, List.countP_cons, nodeLines_count, edgeLines_count,
        startEdges_count, isNodeLine_header, isNodeLine_startNode]

/-! ## Lemmas about body parsing in parseEntry -/

theorem parseEntry_body_of_unparsed (e : HarEntry) (t : String) (i : Nat) (a : Bool)
    (hpd : e.request.postDataText = some t) (hne : (t != "") = true)
    (hp : tryParseJson t = none) :
    (parseEntry e i a).body = some (Json.str t) := by
  simp [parseEntry, hpd, hne, parseReqBody, hp]

theorem parseEntry_respBody_of_unparsed (e : HarEntry) (c : HarContent) (t : String) (i : Nat)
    (a : Bool) (hc : e.response.content = some c) (ht : c.text = some t)
    (hne : (t != "") = true) (hp : tryParseJson t = none) :
    (parseEntry e i a).response.body =
      if t.length < 5000 then some (Json.str t) else none := by
  simp [parseEntry, hc, ht, hne, parseRespBody, hp]

/-! ## Lemmas about ingestion -/

theorem ingest_ok_iff (text : String) (j : Json) :
    ingest text = Except.ok j ↔ (tryParseJson text = some j ∧ hasLogEntries j = true) := by
  unfold ingest
  split
  · rename_i h
    simp [h]
  · rename_i har h
    by_cases hh : hasLogEntries har = true
    · rw [if_pos hh]
      constructor
      · intro hok
        have hj : har = j := by
          injection hok
        subst hj
        exact ⟨h, hh⟩
      · rintro ⟨h1, _⟩
        rw [h] at h1
        have hj : har = j := by
          injection h1
        subst hj
        rfl
    · rw [if_neg hh]
      constructor
      · intro hcontra
        exact absurd hcontra (by simp)
      · rintro ⟨h1, h2⟩
        rw [h] at h1
        have hj : har = j := by
          injection h1
        subst hj
        exact absurd h2 hh

/-! ## Remaining helper lemmas -/

theorem filter_keep_empty (l : List HarEntry) :
    l.filter (keepEntry RESOURCE_TYPE_KEYS []) =
      l.filter (fun e => RESOURCE_TYPE_KEYS.contains (computedTypeLower e)) := by
  induction l with
  | nil => rfl
  | cons e rest ih => simp [List.filter_cons, keepEntry_empty, ih]

theorem bigX_len : bigX.length = 5000 := by
  have h : bigX.length = (List.replicate 5000 'x').length := rfl
  rw [h, List.length_replicate]

theorem skipWs_x (cs : List Char) : skipWs ('x' :: cs) = 'x' :: cs := by
  simp [skipWs]

theorem parseValue_x (n : Nat) (cs : List Char) : parseValue (n + 1) ('x' :: cs) = none := by
  simp [parseValue, parseNum, isDig, qMark]

theorem strne (c : Char) (cs : List Char) : (String.mk (c :: cs) != "") = true := by
  rw [bne_iff_ne]
  intro h
  exact absurd (congrArg String.data h) (by simp)

theorem tryParseJson_bigX : tryParseJson bigX = none := by
  have hdata : bigX.data = 'x' :: List.replicate 4999 'x' := rfl
  unfold tryParseJson
  rw [hdata, skipWs_x, bigX_len]
  rw [show (2 * 5000 + 2 : Nat) = 10001 + 1 from rfl, parseValue_x]

theorem isReqNodeLine_header : isReqNodeLine MLine.header = false := rfl

theorem isReqNodeLine_startNode : isReqNodeLine MLine.startNode = false := rfl

theorem isReqNodeLine_nodeDef (id : Nat) (label : String) :
    isReqNodeLine (MLine.nodeDef id label) = true := rfl

theorem isReqNodeLine_styleLine (id : Nat) (s : String) :
    isReqNodeLine (MLine.styleLine id s) = false := rfl

theorem isReqNodeLine_edgeLine (a b : Nat) (s : String) :
    isReqNodeLine (MLine.edgeLine a b s) = false := rfl

theorem isReqNodeLine_startEdge (a : Nat) : isReqNodeLine (MLine.startEdge a) = false := rfl

theorem isReqNodeLine_moreNode (n : Nat) : isReqNodeLine (MLine.moreNode n) = false := rfl

theorem isReqNodeLine_moreStyle : isReqNodeLine MLine.moreStyle = false := rfl

theorem nodeLines_reqCount (l : List Req) :
    (nodeLines l).countP (fun x => isReqNodeLine x) = l.length := by
  induction l with
  | nil => simp [nodeLines]
  | cons r rest ih =>
    simp only [nodeLines, List.length_cons]
    split
    · simp [List.countP_cons, List.countP_append, isReqNodeLine_nodeDef,
        isReqNodeLine_styleLine, ih]
    · split
      · simp [List.countP_cons, List.countP_append, isReqNodeLine_nodeDef,
          isReqNodeLine_styleLine, ih]
      · simp [List.countP_cons, isReqNodeLine_nodeDef, ih]

theorem edgeLines_reqCount (m : Nat) (deps : List Dep) :
    (edgeLines m deps).1.countP (fun x => isReqNodeLine x) = 0 := by
  induction deps with
  | nil => simp [edgeLines]
  | cons d rest ih =>
    simp only [edgeLines]
    split
    · exact ih
    · simp [List.countP_cons, isReqNodeLine_edgeLine, ih]

theorem startEdges_reqCount (hi : List Nat) (l : List Req) :
    (startEdges hi l).countP (fun x => isReqNodeLine x) = 0 := by
  induction l with
  | nil => simp [startEdges]
  | cons r rest ih =>
    simp only [startEdges]
    split
    · exact ih
    · simp [List.countP_cons, isReqNodeLine_startEdge, ih]

theorem mermaidReqNodeCount_le (requests : List Req) (deps : List Dep) :
    (renderMermaidLines requests deps).countP (fun x => isReqNodeLine x) ≤ 50 := by
  unfold renderMermaidLines
  split
  · simp
  · have htake : (requests.take 50).length ≤ 50 := by
      rw [List.length_take]
      omega
    by_cases hlen : requests.length > 50
    · simp [hlen, List.countP_append, List.countP_cons, nodeLines_reqCount, edgeLines_reqCount,
        startEdges_reqCount, isReqNodeLine_header, isReqNodeLine_startNode,
        isReqNodeLine_moreNode, isReqNodeLine_moreStyle]
    · simp [hlen, List.countP_append, List.countP_cons, nodeLines_reqCount, edgeLines_reqCount,
        startEdges_reqCount, isReqNodeLine_header, isReqNodeLine_startNode]

/-! ## Claim theorems -/

/-- C1: on a trace whose record at index 0 answers with the JSON body with
key token and value abcdef1234567890 and whose record at index 1 carries the
request header Authorization with that bearer value, the full pipeline infers
exactly one dependency edge, from source 0 to destination 1, with matched
value abcdef1234567890, recorded with the producing field path token. -/
theorem c1_token_header_single_edge :
    processDeps [loginEntry, meEntry] RESOURCE_TYPE_KEYS [] false =
      [Dep.mk 0 1 "token" "abcdef1234567890"] := by decide

/-- C2: every edge produced by dependency inference points strictly forward,
source index under destination index: record i is scanned against the Value
Index before its own response values are indexed, so no edge is reflexive and
none refers to a value produced by a later record. -/
theorem c2_edges_strictly_forward (reqs : List Req) (d : Dep)
    (hd : d ∈ detectDependencies reqs) : d.fromIdx < d.toIdx :=
  ((detectLoop_inv reqs 0 [] (by simp [MapInv])).1 d hd).1

theorem c2_edges_strictly_forward_witness :
    (Dep.mk 0 1 "tok" "SECRETTOKEN999").fromIdx < (Dep.mk 0 1 "tok" "SECRETTOKEN999").toIdx :=
  c2_edges_strictly_forward [prodReq, dateHeaderReq] (Dep.mk 0 1 "tok" "SECRETTOKEN999")
    (by decide)

/-- C3 counterexample: in the exact scenario of the claim, a destination
record whose candidate contains two distinct indexed values produced by the
same earlier record through the substring fallback, the produced edge list
holds a single edge, not multiple edges with the same source and destination
pair: the seen set constrains the substring branch as well. -/
theorem c3_same_pair_counterexample :
    strIncludes "AAAAAAAAAA1 BBBBBBBBBB2" "AAAAAAAAAA1" = true ∧
    strIncludes "AAAAAAAAAA1 BBBBBBBBBB2" "BBBBBBBBBB2" = true ∧
    finalValueMap [twoValReq] = [("AAAAAAAAAA1", Src.mk 0 "a"), ("BBBBBBBBBB2", Src.mk 0 "b")] ∧
    detectDependencies [twoValReq, combinedReq] = [Dep.mk 0 1 "a" "AAAAAAAAAA1"] :=
  ⟨by decide, by decide, by decide, by decide⟩

/-- C3 amended: the per-record seen set guards the exact-match branch and the
substring fallback alike, so for every record list the edge list never holds
two edges with the same source and destination pair. -/
theorem c3_at_most_one_edge_per_pair (reqs : List Req) :
    List.Pairwise (fun d1 d2 => d1.fromIdx ≠ d2.fromIdx ∨ d1.toIdx ≠ d2.toIdx)
      (detectDependencies reqs) :=
  (detectLoop_inv reqs 0 [] (by simp [MapInv])).2.1

/-- C4: no edge carries a matched value of length 8 or less, and the Value
Index never holds a key of length 8 or less nor of length 1000 or more.
Every intermediate stage of the index is the final index of some record list
prefix, so quantifying over every record list covers every stage. -/
theorem c4_value_length_bounds (reqs : List Req) :
    (∀ d ∈ detectDependencies reqs, 8 < d.value.length) ∧
    (∀ kv ∈ finalValueMap reqs, 8 < kv.1.length ∧ kv.1.length < 1000) := by
  have h := detectLoop_inv reqs 0 [] (by simp [MapInv])
  constructor
  · intro d hd
    exact (h.1 d hd).2.2
  · intro kv hkv
    have h3 := goodKey_spec kv.1 ((h.2.2 kv hkv).1)
    exact ⟨h3.1, h3.2.1⟩

theorem c4_value_length_bounds_witness :
    8 < (Dep.mk 0 1 "tok" "SECRETTOKEN999").value.length ∧
    (8 < String.length "SECRETTOKEN999" ∧ String.length "SECRETTOKEN999" < 1000) :=
  ⟨(c4_value_length_bounds [prodReq, dateHeaderReq]).1 (Dep.mk 0 1 "tok" "SECRETTOKEN999")
      (by decide),
   (c4_value_length_bounds [prodReq]).2 ("SECRETTOKEN999", Src.mk 0 "tok") (by decide)⟩

/-- C5 counterexample: with the full resource-type set enabled and no
exclusion patterns, a transaction whose explicit resource-type annotation is
ping, a label outside the fixed key set, is dropped, so filtering does not
return every transaction of the trace. -/
theorem c5_unknown_type_dropped_counterexample :
    filteredSorted [pingEntry] RESOURCE_TYPE_KEYS [] = [] ∧
    ([] : List HarEntry) ≠ [pingEntry] :=
  ⟨by decide, by decide⟩

/-- C5 amended: filtering with an empty exclusion list and the full
resource-type set retains exactly the transactions whose computed resource
type, the explicit annotation when truthy else the heuristic guess and then
lowercased, lies in the fixed key set; the result is sorted by start
timestamp and stable, ties keeping original array order, stated through the
per-timestamp filter equality. -/
theorem c5_filter_sort_amended (entries : List HarEntry) :
    filteredSorted entries RESOURCE_TYPE_KEYS [] =
      sortByTime (entries.filter (fun e => RESOURCE_TYPE_KEYS.contains (computedTypeLower e))) ∧
    List.Pairwise timeLE (filteredSorted entries RESOURCE_TYPE_KEYS []) ∧
    ∀ t : Int,
      (filteredSorted entries RESOURCE_TYPE_KEYS []).filter (fun x => x.startedDateTime == t) =
        (entries.filter (keepEntry RESOURCE_TYPE_KEYS [])).filter
          (fun x => x.startedDateTime == t) := by
  refine ⟨?_, ?_, ?_⟩
  · unfold filteredSorted
    rw [filter_keep_empty]
  · exact sortByTime_sorted _
  · intro t
    exact sortByTime_stable _ t

/-- C6 counterexample: a request body of 5000 characters that fails to parse
as JSON is kept as the raw text, not dropped to null: the 5000 character
ceiling applies only to response bodies. -/
theorem c6_oversized_request_body_counterexample :
    (parseEntry bigBodyEntry 0 false).body = some (Json.str bigX) ∧
    some (Json.str bigX) ≠ (none : Option Json) ∧
    5000 ≤ bigX.length ∧
    tryParseJson bigX = none :=
  ⟨parseEntry_body_of_unparsed bigBodyEntry bigX 0 false rfl
      (strne 'x' (List.replicate 4999 'x')) tryParseJson_bigX,
   by simp,
   by rw [bigX_len],
   tryParseJson_bigX⟩

/-- C6 amended: when a body fails to parse as JSON, a response body falls
back to the raw text if the text is under 5000 characters and is dropped to
null otherwise, while a request body always falls back to the raw text with
no size ceiling; the parse failure never surfaces as an error, record
extraction being a total function. -/
theorem c6_body_fallback_amended (e : HarEntry) (i : Nat) (a : Bool) (t : String) :
    (e.request.postDataText = some t → (t != "") = true → tryParseJson t = none →
      (parseEntry e i a).body = some (Json.str t)) ∧
    (∀ c : HarContent, e.response.content = some c → c.text = some t → (t != "") = true →
      tryParseJson t = none →
      (parseEntry e i a).response.body = if t.length < 5000 then some (Json.str t) else none) :=
  ⟨fun h1 h2 h3 => parseEntry_body_of_unparsed e t i a h1 h2 h3,
   fun c h1 h2 h3 h4 => parseEntry_respBody_of_unparsed e c t i a h1 h2 h3 h4⟩

theorem c6_body_fallback_amended_witness :
    (parseEntry smallBadEntry 0 false).body = some (Json.str "notjson[[") ∧
    (parseEntry smallBadEntry 0 false).response.body = some (Json.str "notjson[[") := by
  have h := c6_body_fallback_amended smallBadEntry 0 false "notjson[["
  refine ⟨h.1 rfl (by decide) rfl, ?_⟩
  have h2 := h.2 { mimeType := "text/plain", text := some "notjson[[" } rfl rfl (by decide) rfl
  rw [if_pos (by decide)] at h2
  exact h2

/-- C7: a leaf string of a structured response body beginning with an ISO
date or a URL scheme is never placed in the Value Index as a producer, while
the candidate scan on the consuming side applies no such exclusion: a
date-prefixed request header still consumes an indexed token through the
substring fallback, and a response string beginning 2024-01-01 yields no edge
even when a later request repeats it verbatim. -/
theorem c7_indexing_exclusions :
    (∀ (reqs : List Req), ∀ kv ∈ finalValueMap reqs,
      datePre kv.1 = false ∧ urlPre kv.1 = false) ∧
    (datePre "2024-01-01 SECRETTOKEN999" = true ∧
      detectDependencies [prodReq, dateHeaderReq] = [Dep.mk 0 1 "tok" "SECRETTOKEN999"]) ∧
    detectDependencies [dateProdReq, dateRepeatReq] = [] := by
  refine ⟨?_, ⟨by decide, by decide⟩, by decide⟩
  intro reqs kv hkv
  have h := detectLoop_inv reqs 0 [] (by simp [MapInv])
  have h2 := goodKey_spec kv.1 ((h.2.2 kv hkv).1)
  exact ⟨h2.2.2.1, h2.2.2.2⟩

theorem c7_indexing_exclusions_witness :
    datePre "SECRETTOKEN999" = false ∧ urlPre "SECRETTOKEN999" = false :=
  c7_indexing_exclusions.1 [prodReq] ("SECRETTOKEN999", Src.mk 0 "tok") (by decide)

/-- C8: ingestion of the trace text succeeds exactly when the text is valid
JSON whose top level has a truthy log member holding an entries array, in
which case the parsed trace is produced for processing; otherwise one
user-visible error results and no processing runs. -/
theorem c8_ingest_iff (text : String) :
    (∀ j : Json, ingest text = Except.ok j ↔
      (tryParseJson text = some j ∧ hasLogEntries j = true)) ∧
    ((∃ msg, ingest text = Except.error msg) ↔
      ¬ ∃ j : Json, tryParseJson text = some j ∧ hasLogEntries j = true) := by
  refine ⟨fun j => ingest_ok_iff text j, ?_⟩
  constructor
  · rintro ⟨msg, hmsg⟩ ⟨j, hj⟩
    have h2 := (ingest_ok_iff text j).mpr hj
    rw [h2] at hmsg
    exact Except.noConfusion hmsg
  · intro hno
    cases hin : ingest text with
    | error msg => exact ⟨msg, rfl⟩
    | ok j => exact absurd ⟨j, (ingest_ok_iff text j).mp hin⟩ hno

theorem c8_ingest_iff_witness :
    ingest "\x7b\"log\":\x7b\"entries\":[]\x7d\x7d" =
      Except.ok (Json.obj [("log", Json.obj [("entries", Json.arr [])])]) :=
  ((c8_ingest_iff "\x7b\"log\":\x7b\"entries\":[]\x7d\x7d").1 _).mpr ⟨rfl, rfl⟩

/-- C9 counterexample: a filtered trace of 51 records yields a diagram with
52 node lines, the 50 capped request nodes plus the synthetic start node plus
the overflow marker node, which exceeds the cap of 50 plus one marker. -/
theorem c9_node_count_counterexample :
    mermaidNodeCount ((List.range 51).map mkReq) [] = 52 ∧ 50 + 1 < 52 :=
  ⟨by decide, by decide⟩

/-- C9 amended: the diagram never holds more than 50 request nodes, and its
total node count, which additionally counts the synthetic start node and the
overflow marker node, never exceeds 52, for every record list and edge
list. -/
theorem c9_node_count_bound (requests : List Req) (deps : List Dep) :
    (renderMermaidLines requests deps).countP (fun x => isReqNodeLine x) ≤ 50 ∧
    mermaidNodeCount requests deps ≤ 52 :=
  ⟨mermaidReqNodeCount_le requests deps, mermaidNodeCount_le requests deps⟩

/-- C10: dependency inference is not independent of the show-all-headers
flag: on a trace whose secret value occurs only in a denylisted noise header,
the pipeline with the flag set infers the edge and the pipeline with the flag
unset infers none, because candidate scanning reads the request header map
after the denylist has been applied. -/
theorem c10_headers_flag_changes_deps :
    processDeps [tokEntry, langEntry] RESOURCE_TYPE_KEYS [] true =
      [Dep.mk 0 1 "tok" "SECRETVALUE12345"] ∧
    processDeps [tokEntry, langEntry] RESOURCE_TYPE_KEYS [] false = [] ∧
    processDeps [tokEntry, langEntry] RESOURCE_TYPE_KEYS [] true ≠
      processDeps [tokEntry, langEntry] RESOURCE_TYPE_KEYS [] false :=
  ⟨by decide, by decide, by decide⟩

end HarTools
